import Mathlib

/-!
Verification of the taxadb `TaxID` resolver (src/taxadb/taxid.py) against its
specification.  The store (peewee `Taxa` table) is embedded as a list of rows;
`Taxa.get(cond)` is embedded as `List.find?` (first row satisfying the
condition, `none` when peewee would raise `Taxa.DoesNotExist`).  The Python
`while` loops of `lineage_id` / `lineage_name` are embedded with an explicit
fuel parameter; the constructor `diverges` marks fuel exhaustion, i.e. a run
of the Python loop that has not terminated within `fuel` iterations.  A
`notFound` result corresponds to the Python functions returning `None` (the
`except Taxa.DoesNotExist` branch).
-/

namespace Taxadb

/-- Row of the `taxa` table: taxid, scientific name, parent taxid. -/
structure Taxon where
  ncbi_taxid : Nat
  tax_name : String
  parent_taxid : Nat
deriving DecidableEq, Repr

/-- The taxon store: the rows of the `taxa` table, in table order. -/
abbrev Store := List Taxon

/-- Embedding of `Taxa.get(Taxa.ncbi_taxid == taxid)`: first row whose
`ncbi_taxid` equals `taxid`, or `none` when peewee raises `DoesNotExist`. -/
def getTaxa (store : Store) (taxid : Nat) : Option Taxon :=
  store.find? (fun r => r.ncbi_taxid == taxid)

/-- Embedding of `Taxa.get(Taxa.tax_name == name)`. -/
def getTaxaByName (store : Store) (name : String) : Option Taxon :=
  store.find? (fun r => r.tax_name == name)

/-- Embedding of `TaxID.sci_name`: name for a taxid, `none` if absent. -/
def sci_name (store : Store) (taxid : Nat) : Option String :=
  (getTaxa store taxid).map Taxon.tax_name

/-- Embedding of `TaxID.tax_id`: taxid for an exact scientific name,
`none` if absent. -/
def tax_id (store : Store) (name : String) : Option Nat :=
  (getTaxaByName store name).map Taxon.ncbi_taxid

/-- Result of a lineage operation. `found l` is the Python function returning
the list `l`; `notFound` is the Python function returning `None` (a
`Taxa.DoesNotExist` was raised and caught); `diverges` is an artifact of the
fuel-indexed embedding and marks a loop still running after `fuel` steps. -/
inductive LineageResult (α : Type) where
  | found : List α → LineageResult α
  | notFound : LineageResult α
  | diverges : LineageResult α
deriving DecidableEq, Repr

/-- The `while current_lineage != 'root'` loop of `TaxID.lineage_id`,
accumulating ncbi taxids.  The loop state is the current row (holding
`current_lineage = row.tax_name`, `current_lineage_id = row.ncbi_taxid`,
`parent = row.parent_taxid`) and the accumulated `lineage_list`. -/
def lineageLoopId (store : Store) : Nat → Taxon → List Nat → LineageResult Nat
  | 0, row, acc => if row.tax_name = "root" then .found acc else .diverges
  | fuel + 1, row, acc =>
    if row.tax_name = "root" then .found acc
    else
      match getTaxa store row.parent_taxid with
      | none => .notFound
      | some next => lineageLoopId store fuel next (acc ++ [row.ncbi_taxid])

/-- Embedding of `TaxID.lineage_id`. -/
def lineage_id (store : Store) (taxid : Nat) (reverse : Bool) (fuel : Nat) :
    LineageResult Nat :=
  match getTaxa store taxid with
  | none => .notFound
  | some row =>
    match lineageLoopId store fuel row [] with
    | .found l => .found (if reverse then l.reverse else l)
    | r => r

/-- The `while current_lineage != 'root'` loop of `TaxID.lineage_name`,
accumulating names. -/
def lineageLoopName (store : Store) :
    Nat → Taxon → List String → LineageResult String
  | 0, row, acc => if row.tax_name = "root" then .found acc else .diverges
  | fuel + 1, row, acc =>
    if row.tax_name = "root" then .found acc
    else
      match getTaxa store row.parent_taxid with
      | none => .notFound
      | some next => lineageLoopName store fuel next (acc ++ [row.tax_name])

/-- Embedding of `TaxID.lineage_name`. -/
def lineage_name (store : Store) (taxid : Nat) (reverse : Bool) (fuel : Nat) :
    LineageResult String :=
  match getTaxa store taxid with
  | none => .notFound
  | some row =>
    match lineageLoopName store fuel row [] with
    | .found l => .found (if reverse then l.reverse else l)
    | r => r

/-- Row returned by the fuzzy query: the taxon together with the projected
`similarity` score and `levenshtein` edit distance. -/
structure FuzzyRow where
  taxon : Taxon
  similarity : ℚ
  levenshtein : Nat
deriving DecidableEq, Repr

/-- Modelled from the spec: the raw SQL similarity query of
`TaxID.tax_id_fuzzy` runs on the external store (PostgreSQL with the
`pg_trgm` extension), whose semantics are not part of src.  Following the
spec, the query keeps the rows whose name passes the trigram-similarity
cutoff against the parameter, projects each with its similarity score and
edit distance, orders by similarity descending, and limits to `limit` rows;
an empty candidate set yields the empty list.  The similarity and
edit-distance functions and the cutoff are parameters of the model. -/
def tax_id_fuzzy (sim : String → String → ℚ) (lev : String → String → Nat)
    (threshold : ℚ) (store : Store) (name : String) (limit : Nat) :
    List FuzzyRow :=
  ((((store.filter (fun r => decide (threshold ≤ sim r.tax_name name))).map
      (fun r => ⟨r, sim r.tax_name name, lev r.tax_name name⟩)).mergeSort
      (fun a b => decide (b.similarity ≤ a.similarity))).take limit)

/-- Following the parent pointer `k` times from a row: the `k`-th ancestor,
`none` if some parent lookup along the way fails. -/
def ancestorRow (store : Store) : Nat → Taxon → Option Taxon
  | 0, row => some row
  | k + 1, row =>
    match getTaxa store row.parent_taxid with
    | none => none
    | some next => ancestorRow store k next

/-- Mapping a function over the list of a `found` result. -/
def mapResult (f : α → β) : LineageResult α → LineageResult β
  | .found l => .found (l.map f)
  | .notFound => .notFound
  | .diverges => .diverges

/-- The concrete three-row store of the spec's scenario. -/
def demoStore : Store :=
  [⟨1, "root", 1⟩, ⟨2, "Eukaryota", 1⟩, ⟨3, "Homo sapiens", 2⟩]

/-- A corrupt one-row store whose single row has a dangling parent pointer. -/
def corruptStore : Store :=
  [⟨5, "Metazoa", 6⟩]

theorem getTaxa_taxid {store : Store} {t : Nat} {r : Taxon}
    (h : getTaxa store t = some r) : r.ncbi_taxid = t := by
  have := List.find?_some h
  simpa using this

theorem getTaxa_mem {store : Store} {t : Nat} {r : Taxon}
    (h : getTaxa store t = some r) : r ∈ store :=
  List.mem_of_find?_eq_some h

theorem getTaxa_self {store : Store} {t : Nat} {r : Taxon}
    (h : getTaxa store t = some r) : getTaxa store r.ncbi_taxid = some r := by
  rw [getTaxa_taxid h]; exact h

theorem getTaxaByName_matches {store : Store} {n : String} {r : Taxon}
    (h : getTaxaByName store n = some r) : r.tax_name = n := by
  have := List.find?_some h
  simpa using this

theorem lineage_id_eq_none {store : Store} {t fuel : Nat} {rev : Bool}
    (h : getTaxa store t = none) :
    lineage_id store t rev fuel = .notFound := by
  unfold lineage_id
  rw [h]

theorem lineage_id_eq_some {store : Store} {t fuel : Nat} {rev : Bool}
    {row : Taxon} (h : getTaxa store t = some row) :
    lineage_id store t rev fuel =
      match lineageLoopId store fuel row [] with
      | .found l => .found (if rev then l.reverse else l)
      | r => r := by
  unfold lineage_id
  rw [h]

theorem lineage_name_eq_none {store : Store} {t fuel : Nat} {rev : Bool}
    (h : getTaxa store t = none) :
    lineage_name store t rev fuel = .notFound := by
  unfold lineage_name
  rw [h]

theorem lineage_name_eq_some {store : Store} {t fuel : Nat} {rev : Bool}
    {row : Taxon} (h : getTaxa store t = some row) :
    lineage_name store t rev fuel =
      match lineageLoopName store fuel row [] with
      | .found l => .found (if rev then l.reverse else l)
      | r => r := by
  unfold lineage_name
  rw [h]

theorem ancestorRow_succ {store : Store} {r next : Taxon}
    (hp : getTaxa store r.parent_taxid = some next) (k : Nat) :
    ancestorRow store (k + 1) r = ancestorRow store k next := by
  simp [ancestorRow, hp]

theorem ancestorRow_canonical {store : Store} :
    ∀ (k : Nat) (r rr : Taxon), getTaxa store r.ncbi_taxid = some r →
      ancestorRow store k r = some rr →
      getTaxa store rr.ncbi_taxid = some rr := by
  intro k
  induction k with
  | zero =>
      intro r rr hr ha
      simp [ancestorRow] at ha
      subst ha
      exact hr
  | succ k ih =>
      intro r rr hr ha
      cases hp : getTaxa store r.parent_taxid with
      | none => rw [ancestorRow] at ha; rw [hp] at ha; simp at ha
      | some next => exact ih next rr (getTaxa_self hp) ((ancestorRow_succ hp k) ▸ ha)

theorem reach_found {store : Store} :
    ∀ (k fuel : Nat) (r rr : Taxon) (acc : List Nat), k ≤ fuel →
      ancestorRow store k r = some rr → rr.tax_name = "root" →
      ∃ l, lineageLoopId store fuel r acc = .found l := by
  intro k
  induction k with
  | zero =>
      intro fuel r rr acc hk ha hroot
      simp [ancestorRow] at ha
      subst ha
      cases fuel <;> exact ⟨acc, by simp [lineageLoopId, hroot]⟩
  | succ k ih =>
      intro fuel r rr acc hk ha hroot
      by_cases hname : r.tax_name = "root"
      · cases fuel <;> exact ⟨acc, by simp [lineageLoopId, hname]⟩
      · cases fuel with
        | zero => omega
        | succ f =>
            cases hp : getTaxa store r.parent_taxid with
            | none => rw [ancestorRow] at ha; rw [hp] at ha; simp at ha
            | some next =>
                rw [ancestorRow_succ hp] at ha
                obtain ⟨l, hl⟩ :=
                  ih f next rr (acc ++ [r.ncbi_taxid]) (by omega) ha hroot
                exact ⟨l, by simp [lineageLoopId, hname, hp, hl]⟩

theorem reach_exact {store : Store} :
    ∀ (k fuel : Nat) (r rr : Taxon) (acc : List Nat), k ≤ fuel →
      getTaxa store r.ncbi_taxid = some r →
      ancestorRow store k r = some rr → rr.tax_name = "root" →
      (∀ j, j < k →
        (ancestorRow store j r).map Taxon.tax_name ≠ some "root") →
      ∃ l, lineageLoopId store fuel r acc = .found (acc ++ l) ∧
        l.length = k ∧
        ∀ t ∈ l, ∃ rt, getTaxa store t = some rt ∧ rt.tax_name ≠ "root" := by
  intro k
  induction k with
  | zero =>
      intro fuel r rr acc hk hr ha hroot hmin
      simp [ancestorRow] at ha
      subst ha
      refine ⟨[], ?_, rfl, by simp⟩
      cases fuel <;> simp [lineageLoopId, hroot]
  | succ k ih =>
      intro fuel r rr acc hk hr ha hroot hmin
      have hname : r.tax_name ≠ "root" := by
        have h0 := hmin 0 (by omega)
        simpa [ancestorRow] using h0
      cases fuel with
      | zero => omega
      | succ f =>
          cases hp : getTaxa store r.parent_taxid with
          | none => rw [ancestorRow] at ha; rw [hp] at ha; simp at ha
          | some next =>
              rw [ancestorRow_succ hp] at ha
              have hmin' : ∀ j, j < k →
                  (ancestorRow store j next).map Taxon.tax_name ≠
                    some "root" := by
                intro j hj
                rw [← ancestorRow_succ hp j]
                exact hmin (j + 1) (by omega)
              obtain ⟨l, hl, hlen, hmem⟩ :=
                ih f next rr (acc ++ [r.ncbi_taxid]) (by omega)
                  (getTaxa_self hp) ha hroot hmin'
              refine ⟨r.ncbi_taxid :: l, ?_, by simp [hlen], ?_⟩
              · have hcat : acc ++ r.ncbi_taxid :: l =
                    acc ++ [r.ncbi_taxid] ++ l := by simp
                rw [hcat]
                simp [lineageLoopId, hname, hp, hl]
              · intro t ht
                rcases List.mem_cons.mp ht with rfl | ht'
                · exact ⟨r, hr, hname⟩
                · exact hmem t ht'

theorem walk_notFound {store : Store} :
    ∀ (j fuel : Nat) (r rj : Taxon) (acc : List Nat), j < fuel →
      ancestorRow store j r = some rj →
      (∀ i, i ≤ j →
        (ancestorRow store i r).map Taxon.tax_name ≠ some "root") →
      getTaxa store rj.parent_taxid = none →
      lineageLoopId store fuel r acc = .notFound := by
  intro j
  induction j with
  | zero =>
      intro fuel r rj acc hj ha hnr hd
      simp [ancestorRow] at ha
      subst ha
      have hname : r.tax_name ≠ "root" := by
        have h0 := hnr 0 (by omega)
        simpa [ancestorRow] using h0
      cases fuel with
      | zero => omega
      | succ f => simp [lineageLoopId, hname, hd]
  | succ j ih =>
      intro fuel r rj acc hj ha hnr hd
      have hname : r.tax_name ≠ "root" := by
        have h0 := hnr 0 (by omega)
        simpa [ancestorRow] using h0
      cases fuel with
      | zero => omega
      | succ f =>
          cases hp : getTaxa store r.parent_taxid with
          | none => rw [ancestorRow] at ha; rw [hp] at ha; simp at ha
          | some next =>
              rw [ancestorRow_succ hp] at ha
              have hnr' : ∀ i, i ≤ j →
                  (ancestorRow store i next).map Taxon.tax_name ≠
                    some "root" := by
                intro i hi
                rw [← ancestorRow_succ hp i]
                exact hnr (i + 1) (by omega)
              have := ih f next rj (acc ++ [r.ncbi_taxid]) (by omega) ha hnr' hd
              simp [lineageLoopId, hname, hp, this]

theorem loop_rel {store : Store} :
    ∀ (fuel : Nat) (r : Taxon) (acc : List Nat),
      getTaxa store r.ncbi_taxid = some r →
      lineageLoopName store fuel r
          (acc.map (fun t => (sci_name store t).getD "")) =
        mapResult (fun t => (sci_name store t).getD "")
          (lineageLoopId store fuel r acc) := by
  intro fuel
  induction fuel with
  | zero =>
      intro r acc hr
      by_cases hname : r.tax_name = "root" <;>
        simp [lineageLoopName, lineageLoopId, hname, mapResult]
  | succ f ih =>
      intro r acc hr
      by_cases hname : r.tax_name = "root"
      · simp [lineageLoopName, lineageLoopId, hname, mapResult]
      · cases hp : getTaxa store r.parent_taxid with
        | none => simp [lineageLoopName, lineageLoopId, hname, hp, mapResult]
        | some next =>
            have hmap :
                (acc.map (fun t => (sci_name store t).getD "")) ++
                    [r.tax_name] =
                  (acc ++ [r.ncbi_taxid]).map
                    (fun t => (sci_name store t).getD "") := by
              simp [sci_name, hr]
            have hrec := ih next (acc ++ [r.ncbi_taxid]) (getTaxa_self hp)
            rw [← hmap] at hrec
            simp [lineageLoopName, lineageLoopId, hname, hp, hrec]

theorem lineage_rel (store : Store) (t : Nat) (rev : Bool) (fuel : Nat) :
    lineage_name store t rev fuel =
      mapResult (fun x => (sci_name store x).getD "")
        (lineage_id store t rev fuel) := by
  cases h : getTaxa store t with
  | none => rw [lineage_name_eq_none h, lineage_id_eq_none h]; rfl
  | some row =>
      rw [lineage_name_eq_some h, lineage_id_eq_some h]
      have hrel := loop_rel fuel row [] (getTaxa_self h)
      simp only [List.map_nil] at hrel
      rw [hrel]
      cases hres : lineageLoopId store fuel row [] with
      | found l => cases rev <;> simp [mapResult, List.map_reverse]
      | notFound => simp [mapResult]
      | diverges => simp [mapResult]

theorem loop_found_mem {store : Store} :
    ∀ (fuel : Nat) (r : Taxon) (acc l : List Nat),
      getTaxa store r.ncbi_taxid = some r →
      lineageLoopId store fuel r acc = .found l →
      ∀ t ∈ l, t ∈ acc ∨ ∃ rt, getTaxa store t = some rt := by
  intro fuel
  induction fuel with
  | zero =>
      intro r acc l hr h t ht
      by_cases hname : r.tax_name = "root"
      · simp [lineageLoopId, hname] at h
        subst h
        exact Or.inl ht
      · simp [lineageLoopId, hname] at h
  | succ f ih =>
      intro r acc l hr h t ht
      by_cases hname : r.tax_name = "root"
      · simp [lineageLoopId, hname] at h
        subst h
        exact Or.inl ht
      · cases hp : getTaxa store r.parent_taxid with
        | none => simp [lineageLoopId, hname, hp] at h
        | some next =>
            simp only [lineageLoopId] at h
            rw [if_neg hname, hp] at h
            rcases ih next (acc ++ [r.ncbi_taxid]) l (getTaxa_self hp) h t ht
              with hin | hex
            · rcases List.mem_append.mp hin with h1 | h2
              · exact Or.inl h1
              · simp at h2
                subst h2
                exact Or.inr ⟨r, hr⟩
            · exact Or.inr hex

/-- Claim C2: for a stored taxid X whose parent chain reaches the root row
in exactly k hops (root at hop k and at no earlier hop), the bottom-up
lineage is found (given fuel of at least k), it has length exactly k, every
element is the taxid of a stored row whose name is not the root sentinel,
and the root row's own taxid is not an element. -/
theorem c2_lineage_length {store : Store} {X k fuel : Nat} {r rr : Taxon}
    (hk : k ≤ fuel) (hX : getTaxa store X = some r)
    (ha : ancestorRow store k r = some rr) (hroot : rr.tax_name = "root")
    (hmin : ∀ j, j < k →
      (ancestorRow store j r).map Taxon.tax_name ≠ some "root") :
    ∃ l, lineage_id store X false fuel = .found l ∧ l.length = k ∧
      (∀ t ∈ l, ∃ rt, getTaxa store t = some rt ∧ rt.tax_name ≠ "root") ∧
      rr.ncbi_taxid ∉ l := by
  obtain ⟨l, hl, hlen, hmem⟩ :=
    reach_exact k fuel r rr [] hk (getTaxa_self hX) ha hroot hmin
  refine ⟨l, ?_, hlen, hmem, ?_⟩
  · rw [lineage_id_eq_some hX, hl]
    simp
  · intro hmem'
    obtain ⟨rt, hrt, hrtname⟩ := hmem _ hmem'
    have hcan : getTaxa store rr.ncbi_taxid = some rr :=
      ancestorRow_canonical k r rr (getTaxa_self hX) ha
    rw [hcan] at hrt
    cases hrt
    exact hrtname hroot

/-- Claim C2 witness: taxid 3 of the demo store reaches the root in exactly
2 hops, and its lineage is a 2-element list avoiding the root's taxid. -/
theorem c2_lineage_length_witness :
    ∃ l, lineage_id demoStore 3 false 10 = .found l ∧ l.length = 2 ∧
      (∀ t ∈ l, ∃ rt, getTaxa demoStore t = some rt ∧
        rt.tax_name ≠ "root") ∧
      (1 : Nat) ∉ l :=
  @c2_lineage_length demoStore 3 2 10 ⟨3, "Homo sapiens", 2⟩ ⟨1, "root", 1⟩
    (by omega) (by decide) (by decide) (by decide) (by decide)

/-- Claim C3: for every store, taxid and fuel, the reverse=true lineage list
(of ids or of names) is the exact reverse of the reverse=false one. -/
theorem c3_reverse (store : Store) (t : Nat) (fuel : Nat) :
    (∀ l, lineage_id store t false fuel = .found l →
      lineage_id store t true fuel = .found l.reverse) ∧
    (∀ m, lineage_name store t false fuel = .found m →
      lineage_name store t true fuel = .found m.reverse) := by
  constructor
  · intro l hl
    cases h : getTaxa store t with
    | none => rw [lineage_id_eq_none h] at hl; simp at hl
    | some row =>
        rw [lineage_id_eq_some h] at hl ⊢
        cases hres : lineageLoopId store fuel row [] with
        | found l' =>
            rw [hres] at hl
            simp at hl
            subst hl
            simp
        | notFound => rw [hres] at hl; simp at hl
        | diverges => rw [hres] at hl; simp at hl
  · intro m hm
    cases h : getTaxa store t with
    | none => rw [lineage_name_eq_none h] at hm; simp at hm
    | some row =>
        rw [lineage_name_eq_some h] at hm ⊢
        cases hres : lineageLoopName store fuel row [] with
        | found m' =>
            rw [hres] at hm
            simp at hm
            subst hm
            simp
        | notFound => rw [hres] at hm; simp at hm
        | diverges => rw [hres] at hm; simp at hm

/-- Claim C3 witness: on the demo store the reversed lineage of taxid 3 is
the reverse of the bottom-up lineage, for ids and names. -/
theorem c3_reverse_witness :
    lineage_id demoStore 3 true 10 = .found [2, 3] ∧
      lineage_name demoStore 3 true 10 =
        .found ["Eukaryota", "Homo sapiens"] :=
  ⟨(c3_reverse demoStore 3 10).1 [3, 2] (by decide),
   (c3_reverse demoStore 3 10).2 ["Homo sapiens", "Eukaryota"] (by decide)⟩

/-- Claim C4: called on a stored row whose name is the root sentinel, the
lineage walk returns the empty list for either value of reverse and any
fuel. -/
theorem c4_root_empty {store : Store} {t fuel : Nat} {r : Taxon}
    (h : getTaxa store t = some r) (hroot : r.tax_name = "root")
    (rev : Bool) : lineage_id store t rev fuel = .found [] := by
  have hloop : lineageLoopId store fuel r [] = .found [] := by
    cases fuel <;> simp [lineageLoopId, hroot]
  rw [lineage_id_eq_some h, hloop]
  cases rev <;> simp

/-- Claim C4 witness: the lineage of the demo store's root taxid 1 is empty
with reverse=true. -/
theorem c4_root_empty_witness : lineage_id demoStore 1 true 5 = .found [] :=
  @c4_root_empty demoStore 1 5 ⟨1, "root", 1⟩ (by decide) (by decide) true

/-- Claim C1, counterexample: on the spec's demo store the code returns
[3, 2] for the bottom-up lineage of taxid 3, not [2]: the walk appends the
starting taxid itself before following the parent pointer. -/
theorem c1_counterexample :
    lineage_id demoStore 3 false 10 = .found [3, 2] ∧
      lineage_id demoStore 3 false 10 ≠ .found [2] := by
  exact ⟨by decide, by decide⟩

/-- Claim C1, amended: on the store {(1,root,1),(2,Eukaryota,1),
(3,Homo sapiens,2)} the operations return lineage_id(3) = [3, 2];
lineage_id(3, reverse) = [2, 3]; lineage_name(3) = ["Homo sapiens",
"Eukaryota"]; sci_name(1) = "root"; tax_id("Pan troglodytes") = the
not-found sentinel. -/
theorem c1_amended :
    lineage_id demoStore 3 false 10 = .found [3, 2] ∧
      lineage_id demoStore 3 true 10 = .found [2, 3] ∧
      lineage_name demoStore 3 false 10 =
        .found ["Homo sapiens", "Eukaryota"] ∧
      sci_name demoStore 1 = some "root" ∧
      tax_id demoStore "Pan troglodytes" = none := by
  exact ⟨by decide, by decide, by decide, by decide, by decide⟩

theorem find_by_name_of_pairwise {store : Store} {r : Taxon}
    (hu : store.Pairwise (fun a b => a.tax_name ≠ b.tax_name))
    (hmem : r ∈ store) :
    getTaxaByName store r.tax_name = some r := by
  induction store with
  | nil => cases hmem
  | cons hd tl ih =>
      rcases List.mem_cons.mp hmem with rfl | hmem'
      · unfold getTaxaByName
        rw [List.find?_cons_of_pos]
        simp
      · have hpc := List.pairwise_cons.mp hu
        have hne : hd.tax_name ≠ r.tax_name := hpc.1 r hmem'
        unfold getTaxaByName
        rw [List.find?_cons_of_neg]
        · exact ih hpc.2 hmem'
        · simp [hne]

/-- Claim C5: when no two rows share a name, looking up a stored taxid's
name and then looking that name up again returns the original taxid. -/
theorem c5_roundtrip {store : Store} {X : Nat} {r : Taxon}
    (hX : getTaxa store X = some r)
    (hu : store.Pairwise (fun a b => a.tax_name ≠ b.tax_name)) :
    ∃ n, sci_name store X = some n ∧ tax_id store n = some X := by
  refine ⟨r.tax_name, by simp [sci_name, hX], ?_⟩
  unfold tax_id
  rw [find_by_name_of_pairwise hu (getTaxa_mem hX)]
  simp [getTaxa_taxid hX]

/-- Claim C5 witness: on the demo store, whose names are pairwise distinct,
the name of taxid 2 resolves back to taxid 2. -/
theorem c5_roundtrip_witness :
    ∃ n, sci_name demoStore 2 = some n ∧ tax_id demoStore n = some 2 :=
  @c5_roundtrip demoStore 2 ⟨2, "Eukaryota", 1⟩ (by decide) (by decide)

/-- Claim C6: sci_name and tax_id return the not-found sentinel (None) for
any key absent from the store; both are total functions of the store, so no
exception reaches the caller. -/
theorem c6_absent (store : Store) (X : Nat) (n : String) :
    ((∀ r ∈ store, r.ncbi_taxid ≠ X) → sci_name store X = none) ∧
    ((∀ r ∈ store, r.tax_name ≠ n) → tax_id store n = none) := by
  constructor
  · intro h
    have hg : getTaxa store X = none :=
      List.find?_eq_none.mpr (fun r hr => by simpa using h r hr)
    simp [sci_name, hg]
  · intro h
    have hg : getTaxaByName store n = none :=
      List.find?_eq_none.mpr (fun r hr => by simpa using h r hr)
    simp [tax_id, hg]

/-- Claim C6 witness: on the demo store, taxid 99 and the name Pan
troglodytes are absent and both lookups return the sentinel. -/
theorem c6_absent_witness :
    sci_name demoStore 99 = none ∧
      tax_id demoStore "Pan troglodytes" = none :=
  ⟨(c6_absent demoStore 99 "Pan troglodytes").1 (by decide),
   (c6_absent demoStore 99 "Pan troglodytes").2 (by decide)⟩

/-- Claim C7: absent rows surface as the not-found sentinel, never as an
exception: a missing starting taxid makes the lookups and both lineage
walks return their sentinel, and a dangling mid-walk parent pointer (first
reached at hop j, with no root-named row up to it) makes both lineage walks
return the sentinel rather than propagating the failure. -/
theorem c7_sentinel {store : Store} {X fuel : Nat} (rev : Bool) :
    (getTaxa store X = none →
      sci_name store X = none ∧
      lineage_id store X rev fuel = .notFound ∧
      lineage_name store X rev fuel = .notFound) ∧
    (∀ j r rj, getTaxa store X = some r → j < fuel →
      ancestorRow store j r = some rj →
      (∀ i, i ≤ j →
        (ancestorRow store i r).map Taxon.tax_name ≠ some "root") →
      getTaxa store rj.parent_taxid = none →
      lineage_id store X rev fuel = .notFound ∧
      lineage_name store X rev fuel = .notFound) := by
  constructor
  · intro h
    exact ⟨by simp [sci_name, h], lineage_id_eq_none h,
      lineage_name_eq_none h⟩
  · intro j r rj hX hj ha hnr hd
    have hloop := walk_notFound j fuel r rj [] hj ha hnr hd
    have hid : lineage_id store X rev fuel = .notFound := by
      rw [lineage_id_eq_some hX, hloop]
    have hrel := lineage_rel store X rev fuel
    rw [hid] at hrel
    exact ⟨hid, by simpa [mapResult] using hrel⟩

/-- Claim C7 witness: the corrupt store's row 5 has parent 6, which is
absent; both walks return the sentinel. -/
theorem c7_sentinel_witness :
    lineage_id corruptStore 5 false 3 = .notFound ∧
      lineage_name corruptStore 5 false 3 = .notFound :=
  (@c7_sentinel corruptStore 5 3 false).2 0 ⟨5, "Metazoa", 6⟩
    ⟨5, "Metazoa", 6⟩ (by decide) (by decide) (by decide) (by decide)
    (by decide)

/-- Claim C8: the fuzzy search returns at most limit rows ordered by
descending similarity, and an empty candidate set (nothing clears the
threshold, or an empty store) yields the empty list as a successful result,
not a sentinel. -/
theorem c8_fuzzy (sim : String → String → ℚ) (lev : String → String → Nat)
    (threshold : ℚ) (store : Store) (name : String) (limit : Nat) :
    (tax_id_fuzzy sim lev threshold store name limit).length ≤ limit ∧
    (tax_id_fuzzy sim lev threshold store name limit).Pairwise
      (fun a b => b.similarity ≤ a.similarity) ∧
    ((∀ r ∈ store, ¬ threshold ≤ sim r.tax_name name) →
      tax_id_fuzzy sim lev threshold store name limit = []) ∧
    (store = [] → tax_id_fuzzy sim lev threshold store name limit = []) := by
  refine ⟨?_, ?_, ?_, ?_⟩
  · exact List.length_take_le _ _
  · have htrans : ∀ (a b c : FuzzyRow),
        (fun a b : FuzzyRow => decide (b.similarity ≤ a.similarity)) a b →
        (fun a b : FuzzyRow => decide (b.similarity ≤ a.similarity)) b c →
        (fun a b : FuzzyRow => decide (b.similarity ≤ a.similarity)) a c := by
      intro a b c hab hbc
      simp only [decide_eq_true_eq] at hab hbc ⊢
      exact hbc.trans hab
    have htotal : ∀ (a b : FuzzyRow),
        ((fun a b : FuzzyRow => decide (b.similarity ≤ a.similarity)) a b ||
          (fun a b : FuzzyRow => decide (b.similarity ≤ a.similarity)) b a) := by
      intro a b
      simpa using le_total b.similarity a.similarity
    have hs := List.sorted_mergeSort htrans htotal
      ((store.filter (fun r => decide (threshold ≤ sim r.tax_name name))).map
        (fun r => ⟨r, sim r.tax_name name, lev r.tax_name name⟩))
    have hp := hs.imp (fun h => of_decide_eq_true h)
    exact List.Pairwise.sublist (List.take_sublist _ _) hp
  · intro h
    have hf : store.filter
        (fun r => decide (threshold ≤ sim r.tax_name name)) = [] := by
      rw [List.filter_eq_nil_iff]
      intro a ha
      simpa using h a ha
    unfold tax_id_fuzzy
    rw [hf]
    simp
  · intro h
    subst h
    simp [tax_id_fuzzy]

/-- Claim C8 witness: with a constant-zero similarity and threshold one, no
row of the demo store clears the threshold: the query returns at most 3
rows and in fact the successful empty list. -/
theorem c8_fuzzy_witness :
    (tax_id_fuzzy (fun _ _ => 0) (fun _ _ => 0) 1 demoStore
      "Gallus gallus" 3).length ≤ 3 ∧
    tax_id_fuzzy (fun _ _ => 0) (fun _ _ => 0) 1 demoStore
      "Gallus gallus" 3 = [] :=
  ⟨(c8_fuzzy (fun _ _ => 0) (fun _ _ => 0) 1 demoStore
      "Gallus gallus" 3).1,
   (c8_fuzzy (fun _ _ => 0) (fun _ _ => 0) 1 demoStore
      "Gallus gallus" 3).2.2.1 (fun r _ => by norm_num)⟩

/-- Claim C9: when every stored row reaches a root-named row by following
parent pointers finitely many times, every lineage walk started at a stored
taxid terminates: some fuel bound makes both walks return a found list, and
any larger fuel keeps them found (the loop never runs forever). -/
theorem c9_termination {store : Store}
    (hreach : ∀ r ∈ store, ∃ k rr, ancestorRow store k r = some rr ∧
      rr.tax_name = "root")
    {X : Nat} {r : Taxon} (hX : getTaxa store X = some r) (rev : Bool) :
    ∃ fuel, ∀ fuel', fuel ≤ fuel' →
      (∃ l, lineage_id store X rev fuel' = .found l) ∧
      (∃ m, lineage_name store X rev fuel' = .found m) := by
  obtain ⟨k, rr, ha, hroot⟩ := hreach r (getTaxa_mem hX)
  refine ⟨k, fun fuel' hf => ?_⟩
  obtain ⟨l, hl⟩ := reach_found k fuel' r rr [] hf ha hroot
  have hid : lineage_id store X rev fuel' =
      .found (if rev then l.reverse else l) := by
    rw [lineage_id_eq_some hX, hl]
  have hrel := lineage_rel store X rev fuel'
  rw [hid] at hrel
  exact ⟨⟨_, hid⟩, ⟨_, by simpa [mapResult] using hrel⟩⟩

/-- Claim C9 witness: the demo store satisfies the reachability invariant
and the walk from taxid 3 terminates. -/
theorem c9_termination_witness :
    ∃ fuel, ∀ fuel', fuel ≤ fuel' →
      (∃ l, lineage_id demoStore 3 false fuel' = .found l) ∧
      (∃ m, lineage_name demoStore 3 false fuel' = .found m) :=
  @c9_termination demoStore
    (by
      intro r hr
      simp [demoStore] at hr
      rcases hr with rfl | rfl | rfl
      · exact ⟨0, ⟨1, "root", 1⟩, by decide, by decide⟩
      · exact ⟨1, ⟨1, "root", 1⟩, by decide, by decide⟩
      · exact ⟨2, ⟨1, "root", 1⟩, by decide, by decide⟩)
    3 ⟨3, "Homo sapiens", 2⟩ (by decide) false

/-- Claim C10: lineage_name performs the identical walk as lineage_id and
differs only in the projected field: the name result is exactly the id
result with every taxid replaced by its stored name (so sentinel and
divergence outcomes coincide), and every taxid in a found id list has a
stored name. -/
theorem c10_refinement (store : Store) (t : Nat) (rev : Bool) (fuel : Nat) :
    lineage_name store t rev fuel =
      mapResult (fun x => (sci_name store x).getD "")
        (lineage_id store t rev fuel) ∧
    (∀ l, lineage_id store t rev fuel = .found l →
      ∀ x ∈ l, (sci_name store x).isSome) := by
  refine ⟨lineage_rel store t rev fuel, ?_⟩
  intro l hl x hx
  cases hg : getTaxa store t with
  | none => rw [lineage_id_eq_none hg] at hl; simp at hl
  | some row =>
      rw [lineage_id_eq_some hg] at hl
      cases hres : lineageLoopId store fuel row [] with
      | found l' =>
          rw [hres] at hl
          simp at hl
          subst hl
          have hx' : x ∈ l' := by
            cases rev <;> simpa using hx
          rcases loop_found_mem fuel row [] l' (getTaxa_self hg) hres x hx'
            with h0 | ⟨rt, hrt⟩
          · simp at h0
          · simp [sci_name, hrt]
      | notFound => rw [hres] at hl; simp at hl
      | diverges => rw [hres] at hl; simp at hl

/-- Claim C10 witness: on the demo store the id walk from taxid 3 finds
[3, 2] and taxid 2 has a stored name. -/
theorem c10_refinement_witness : (sci_name demoStore 2).isSome :=
  (c10_refinement demoStore 3 false 10).2 [3, 2] (by decide) 2 (by decide)

end Taxadb
